import Mathlib

/-!
# Verification of the vaplac `DataTaker` core (hp-tests repository)

Shallow embedding of the quantity store / derivation cache (`DataTaker.get`,
`DataTaker._build_quantities`), the steady-state segmenter
(`DataTaker.steady_state_steps_number`), the binner
(`DataTaker.set_steady_state_limits`) and the heat/power phase correction
(`DataTaker._heat`) from `src/vaplac/base.py`, together with theorems checking
the natural-language specification against this embedding.

Numeric values are modelled as rationals (`ℚ`); the floating-point square root
comparison `sqrt(var) > sd_limit` of the source is modelled by the equivalent
comparison of squares `sd_limit ^ 2 < var` (the two agree whenever
`var ≥ 0` and `sd_limit ≥ 0`, which holds in every run evaluated here).
-/

namespace Vaplac

/-! ## Python / numpy array primitives

The segmenter in `steady_state_steps_number` indexes numpy arrays with
possibly negative indices (`mean[i-1]` at `i = 0` reads `mean[-1]`, the last
cell) and assigns slices with possibly negative bounds
(`steps_number[i-buffer:i]`, `steps_number[-buffer:]`).  These helpers give
those operations their exact Python semantics on `List ℚ`. -/

/-- `a[i-1]` for a loop counter `i : ℕ`: Python wraps `a[-1]` (at `i = 0`)
to the last cell of the array; for `i ≥ 1` it is a plain read at `i - 1`. -/
def pyGetPred (a : List ℚ) (i : ℕ) : ℚ :=
  if i = 0 then a.getD (a.length - 1) 0 else a.getD (i - 1) 0

/-- Lower slice bound `i - b` of `steps_number[i-buffer:i]`: when `b > i`
Python's negative bound counts from the end (`i - b + n`) and is clamped at
0, which is exactly truncated ℕ subtraction. -/
def pySliceLo (n i b : ℕ) : ℕ :=
  if b ≤ i then i - b else n + i - b

/-- Lower slice bound of `steps_number[-buffer:]`: Python's `-0` is `0`
(the whole array!), while a genuinely negative `-b` counts from the end. -/
def pyNegStart (n b : ℕ) : ℕ :=
  if b = 0 then 0 else n - b

/-- Overwrite the cells of `a` at positions `k` with `s ≤ k < e`
(positions counted from `k0`); bounds beyond the array are harmlessly
ignored, as in Python slice assignment. -/
def setRangeFrom (v : ℚ) (s e k0 : ℕ) : List ℚ → List ℚ
  | [] => []
  | x :: xs => (if s ≤ k0 ∧ k0 < e then v else x) :: setRangeFrom v s e (k0 + 1) xs

/-! ## Steady-state segmenter (`DataTaker.steady_state_steps_number`)

Faithful translation of the loop of `base.py`, lines 683-701.  The arrays
`mean`, `var` and `steps_number` are created with `np.empty_like(frequency)`,
i.e. with *uninitialized* contents; the embedding therefore takes their
initial contents (`gmean`, `gvar`, `gsteps`) as explicit parameters.  These
initial contents are observable: the first loop iteration reads
`mean[-1]`/`var[-1]` (only `mean[0]`/`var[0]` were initialized), and cells of
`steps_number` never covered by a slice assignment keep their initial value. -/

/-- Loop state: the three work arrays plus the `buffer` counter. -/
structure SegState where
  mean : List ℚ
  var : List ℚ
  steps : List ℚ
  buffer : ℕ

/-- One iteration of the `for i, f in enumerate(frequency[1:])` loop
(`base.py` lines 690-699).  Note that the loop index `i` lags the position of
`f` in `frequency` by one, exactly as in the source. -/
def segStep (sd_limit : ℚ) (s : SegState) (i : ℕ) (f : ℚ) : SegState :=
  let mprev := pyGetPred s.mean i   -- mean[i-1]
  let vprev := pyGetPred s.var i    -- var[i-1]
  let m := (s.buffer * mprev + f) / (s.buffer + 1)
  let v := (s.buffer * (vprev + mprev ^ 2) + f ^ 2) / (s.buffer + 1) - m ^ 2
  let mean1 := s.mean.set i m
  let var1 := s.var.set i v
  let buffer1 := s.buffer + 1
  -- `if sqrt(var[i]) > sd_limit`, modelled on squares
  if sd_limit ^ 2 < v then
    { mean := mean1.set i f
      var := var1.set i 0
      -- `steps_number[i-buffer:i] = buffer`
      steps := setRangeFrom (buffer1 : ℚ) (pySliceLo s.steps.length i buffer1) i 0 s.steps
      buffer := 0 }
  else
    { mean := mean1, var := var1, steps := s.steps, buffer := buffer1 }

/-- The `for i, f in enumerate(frequency[1:])` loop: `i` starts at 0 while
`f` runs over the tail of the frequency array. -/
def segLoop (sd_limit : ℚ) (s : SegState) (i : ℕ) : List ℚ → SegState
  | [] => s
  | f :: fs => segLoop sd_limit (segStep sd_limit s i f) (i + 1) fs

/-- `DataTaker.steady_state_steps_number` (`base.py` lines 683-701), for a
frequency signal already extracted in Hz.  `gmean`, `gvar`, `gsteps` are the
initial (uninitialized) contents of the three `np.empty_like` arrays.  On an
empty frequency array the source raises `IndexError` at `mean[0]`; the
embedding returns `[]` there (no claim concerns that case). -/
def steady_state_steps_number (sd_limit : ℚ) (frequency gmean gvar gsteps : List ℚ) :
    List ℚ :=
  match frequency with
  | [] => []
  | f0 :: rest =>
    let init : SegState :=
      { mean := gmean.set 0 f0, var := gvar.set 0 0, steps := gsteps, buffer := 1 }
    let final := segLoop sd_limit init 0 rest
    -- `steps_number[-buffer:] = buffer` (note: `-0` is `0`, the whole array)
    setRangeFrom (final.buffer : ℚ) (pyNegStart final.steps.length final.buffer)
      final.steps.length 0 final.steps

/-! ## Quantity store and derivation cache (`DataTaker.get`, lines 356-427)

The cache logic of `DataTaker.get` is modelled over abstract types: `Name`
for quantity names, `V` for computed unit-quantities (`xpint` objects) and
`Filter` for the `**kwargs` row-filter dictionary (Python dict equality is
decidable equality).  `_build_quantities` is abstracted by a per-name
derivation function `derive : Name → Filter → V`: for each requested name it
computes the quantity under the active filter and stores it, which is the
contract of `base.py` lines 227-354 seen from `get`.  Unit re-spelling
(`quantity/unit` suffixes) is dropped: it is deterministic post-processing of
the returned values and does not touch the cache. -/

/-- `DataTaker` state seen by `get`: the `quantities` memo dictionary and the
`_groups` attribute (the filter the store is currently valid for). -/
@[ext]
structure DataTaker (Name V Filter : Type) where
  quantities : Name → Option V
  groups : Filter

variable {Name V Filter : Type} [DecidableEq Name] [DecidableEq Filter]

/-- `DataTaker._build_quantities(*names, **kwargs)`: derive every requested
name under filter `φ` and store it in `quantities` (later writes overwrite
earlier ones, as in the Python dict). -/
def build_quantities (derive : Name → Filter → V) (names : List Name) (φ : Filter)
    (dtk : DataTaker Name V Filter) : DataTaker Name V Filter :=
  { dtk with
    quantities :=
      names.foldl (fun q n => fun x => if x = n then some (derive n φ) else q x)
        dtk.quantities }

/-- `DataTaker.get(variables, update, **kwargs)` (`base.py` lines 402-425).
Returns the new state, the values returned for each requested name (in
request order), and the list of names whose derivation was executed (the
recomputation log).  `if update or self._groups != kwargs:` clears the store
and rebuilds all requested names; otherwise only the requested names missing
from `self.quantities` are built.  `self._groups = kwargs` runs in both
branches. -/
def get (derive : Name → Filter → V) (vars : List Name) (update : Bool)
    (φ : Filter) (dtk : DataTaker Name V Filter) :
    DataTaker Name V Filter × List (Option V) × List Name :=
  if update = true ∨ dtk.groups ≠ φ then
    let cleared : DataTaker Name V Filter := { quantities := fun _ => none, groups := dtk.groups }
    let names := vars.dedup
    let dtk2 := { build_quantities derive names φ cleared with groups := φ }
    (dtk2, vars.map dtk2.quantities, names)
  else
    let names := vars.dedup.filter fun n => (dtk.quantities n).isNone
    let dtk2 := { build_quantities derive names φ dtk with groups := φ }
    (dtk2, vars.map dtk2.quantities, names)

/-! ## Operating-mode selection (`_build_quantities`, lines 265-268)

`ref_dir` is the raw direction-flag column (`refdir`); a nonzero entry flags
cooling.  `heating = np.count_nonzero(ref_dir) < len(ref_dir) / 2` with
Python float division. -/

/-- `np.count_nonzero` on the direction-flag column. -/
def count_nonzero (xs : List ℚ) : ℕ :=
  (xs.filter fun x => x ≠ 0).length

/-- `heating = np.count_nonzero(ref_dir) < len(ref_dir) / 2`
(`base.py` line 268), with Python's exact (non-truncating) division. -/
def heating (ref_dir : List ℚ) : Bool :=
  (count_nonzero ref_dir : ℚ) < (ref_dir.length : ℚ) / 2

/-! ## Cleaned quantities (`_build_quantities`, lines 280-299)

The raw compressor-frequency column can contain the string sentinel
`'UnderRange'` among numbers. -/

/-- A cell of the raw frequency column. -/
inductive RawVal where
  | underRange
  | num (q : ℚ)
deriving DecidableEq

/-- `f[f == 'UnderRange'] = 0; f = f.astype(float) / 2` (lines 281-283):
sentinel readings become 0, then the whole column is halved. -/
def clean_f (raw : List RawVal) : List ℚ :=
  ((raw.map fun v => match v with | .underRange => (0 : ℚ) | .num q => q).map
    fun x => x / 2)

/-- `flowrt_r[f == 0] = 0` (line 293): the mass-flow reading is forced to 0
exactly where the cleaned frequency `f` is 0, elementwise. -/
def clean_flowrt_r (f : List ℚ) (flowrt_r : List ℚ) : List ℚ :=
  List.zipWith (fun fi w => if fi = 0 then 0 else w) f flowrt_r

/-! ## Heat/power computation and phase correction (`DataTaker._heat`,
lines 590-663)

The CoolProp calls are abstracted by an adapter supplying single-phase
enthalpy `properties('H','P',p,'T',T,'R410a')`, saturated-state enthalpy
`properties('H','P',p,'Q',q,'R410a')` and the phase classification
`phase('P',p,'T',T,'R410a')`. -/

/-- Phase classification as returned by CoolProp's `PhaseSI` (the source
compares it with the strings `'liq'` and `'gas'`). -/
inductive RPhase where
  | liq
  | gas
  | twophase
  | supercritical
deriving DecidableEq

/-- The thermophysical property adapter (external collaborator). -/
structure PropsAdapter where
  enthalpy_pt : ℚ → ℚ → ℚ
  enthalpy_pq : ℚ → ℕ → ℚ
  phase_pt : ℚ → ℚ → RPhase

/-- The heat/power quantities computed by `_heat`. -/
inductive PowerKind where
  | Qcond
  | Qev
  | Pcomp
  | Qloss_ev
deriving DecidableEq

/-- Expected (inlet, outlet) phases per process (`base.py` lines 635-638). -/
def exp_phases : PowerKind → RPhase × RPhase
  | .Qcond => (.gas, .liq)
  | .Qev => (.liq, .gas)
  | .Pcomp => (.gas, .gas)
  | .Qloss_ev => (.gas, .gas)

/-- `quality = {'liq': 0, 'gas': 1, None: None}` (line 640). -/
def quality : RPhase → Option ℕ
  | .liq => some 0
  | .gas => some 1
  | _ => none

/-- Enthalpy of one state array with the phase check of `_heat`
(lines 623-652): `h = properties('H','P',p,'T',T)` followed by

    if not exp_phase in phase_arr:
        h[phase_arr != exp_phase] = properties('H','P', p[...], 'Q', quality[exp_phase])

i.e. the masked per-sample replacement runs only when NO sample of the array
is in the expected phase. -/
def correct_enthalpy (A : PropsAdapter) (expPh : RPhase) (p T : List ℚ) : List ℚ :=
  let h := List.zipWith A.enthalpy_pt p T
  let phases := List.zipWith A.phase_pt p T
  if expPh ∈ phases then h
  else
    List.zipWith (fun pq hq => if pq.2 ≠ expPh then A.enthalpy_pq pq.1 ((quality expPh).getD 0) else hq)
      (List.zip p phases) h

/-- The spec's description of the phase correction (claim C6), written from
the spec's words for comparison with `correct_enthalpy`: the replacement is
per-sample, applied to every sample whose observed phase differs from the
expected one, unconditionally. -/
def spec_phase_correction (A : PropsAdapter) (expPh : RPhase) (p T : List ℚ) : List ℚ :=
  List.zipWith
    (fun pi Ti =>
      if A.phase_pt pi Ti ≠ expPh then A.enthalpy_pq pi ((quality expPh).getD 0)
      else A.enthalpy_pt pi Ti)
    p T

/-- `DataTaker._heat` (lines 590-663): phase-corrected enthalpies, then
`flow * (hout - hin)`, sign-flipped for `Qcond`. -/
def heat_transfer (A : PropsAdapter) (power : PowerKind)
    (flow pin Tin pout Tout : List ℚ) : List ℚ :=
  let hin := correct_enthalpy A (exp_phases power).1 pin Tin
  let hout := correct_enthalpy A (exp_phases power).2 pout Tout
  List.zipWith (fun fl h => fl * h * (if power = .Qcond then -1 else 1)) flow
    (List.zipWith (fun ho hi => ho - hi) hout hin)

/-! ## Binner (`DataTaker.set_steady_state_limits`, lines 429-482)

The `limits` argument is a time Quantity array whose magnitudes (after the
`@ureg.wraps` conversion to seconds) may contain the sentinels `-np.inf` /
`np.inf`; a `Lim` models one such magnitude.  The bin labels are modelled
symbolically (carrying the bound values in seconds) rather than as rendered
strings; the choice of display unit (`if limits[1] >= 60: ito('minutes')`) is
returned as a separate boolean. -/

/-- One element of the `limits` array: `-np.inf`, a finite number of seconds,
or `np.inf`. -/
inductive Lim where
  | ninf
  | fin (q : ℚ)
  | pinf
deriving DecidableEq

/-- `b <= x` for a bin bound `b` and a finite sample value `x`. -/
def Lim.leQ : Lim → ℚ → Bool
  | .ninf, _ => true
  | .fin b, x => b ≤ x
  | .pinf, _ => false

/-- `b > x` for a bin bound `b` and a finite sample value `x`. -/
def Lim.gtQ : Lim → ℚ → Bool
  | .ninf, _ => false
  | .fin b, x => x < b
  | .pinf, _ => true

/-- `b >= x` for a bin bound `b` and a finite value `x`. -/
def Lim.geQ : Lim → ℚ → Bool
  | .ninf, _ => false
  | .fin b, x => x ≤ b
  | .pinf, _ => true

/-- `a <= b` on bin bounds (IEEE order with infinities). -/
def Lim.leL : Lim → Lim → Bool
  | .ninf, _ => true
  | _, .pinf => true
  | .fin a, .fin b => a ≤ b
  | _, _ => false

/-- `bins` is monotonically non-decreasing. -/
def ascending : List Lim → Bool
  | [] => true
  | [_] => true
  | a :: b :: t => a.leL b && ascending (b :: t)

/-- `bins` is monotonically non-increasing. -/
def descending : List Lim → Bool
  | [] => true
  | [_] => true
  | a :: b :: t => b.leL a && descending (b :: t)

/-- `np.digitize(x, bins)` (`right=False`): for increasing bins the index `i`
with `bins[i-1] <= x < bins[i]`, i.e. the number of bins `<= x`; for
decreasing bins the index with `bins[i-1] > x >= bins[i]`, i.e. the number of
bins `> x`.  Non-monotonic bins raise `ValueError` (handled by the caller
below). -/
def digitize (x : ℚ) (bins : List Lim) : ℕ :=
  if ascending bins then (bins.filter fun b => b.leQ x).length
  else (bins.filter fun b => b.gtQ x).length

/-- A steady-state bin label: `'τ < hi'`, `'τ ≥ lo'` or `'lo ≤ τ < hi'`
(`lbound` / `ubound` / `between` of lines 466-473, bounds in seconds). -/
inductive SSTBin where
  | lbound (hi : Lim)
  | ubound (lo : Lim)
  | between (lo hi : Lim)
deriving DecidableEq

/-- Errors `set_steady_state_limits` can actually raise, plus the
`InvalidThreshold` error that the specification's error taxonomy names
(kept as a constructor so that claims about it can be stated; the code
below never produces it). -/
inductive BinError where
  | indexError
  | valueError
  | invalidThreshold
deriving DecidableEq

/-- `DataTaker.set_steady_state_limits(limits)` (`base.py` lines 429-482),
as a function of the per-sample steady-state durations in seconds
(`steady_state_steps_number() * timestep`, computed by the caller) and the
limits in seconds.  Returns the per-sample label column (`sst_bins`,
`None` entries modelled as `none`) together with the display-unit flag
(`limits[1] >= 60`), or the error the Python code raises:
`limits[0]` / `limits[1]` out of range are `IndexError`, non-monotonic bins
make `np.digitize` raise `ValueError`. -/
def set_steady_state_limits (limits : List Lim) (steady_state_time : List ℚ) :
    Except BinError (List (Option SSTBin) × Bool) :=
  match limits with
  | [] => Except.error .indexError    -- limits[0] on an empty array
  | _ :: _ =>
    let include_lb := limits.head? = some .ninf      -- limits[0] == -np.inf
    let include_ub := limits.getLast? = some .pinf   -- limits[-1] == np.inf
    let limits1 := if include_lb then limits.drop 1 else limits
    let limits2 := if include_ub then limits1.dropLast else limits1
    -- `if limits[1] >= 60:` -- IndexError when fewer than two limits remain
    match limits2.get? 1 with
    | none => Except.error .indexError
    | some l1 =>
      let displayMinutes := l1.geQ 60    -- `if limits[1] >= 60`
      if ascending limits2 = false ∧ descending limits2 = false then
        Except.error .valueError       -- np.digitize: bins must be monotonic
      else
        let labels := steady_state_time.map fun x =>
          let d := digitize x limits2  -- binidx = d - 1
          if d = 0 then
            if include_lb then some (SSTBin.lbound (limits2.getD 0 (.fin 0))) else none
          else if d = limits2.length then
            if include_ub then some (SSTBin.ubound (limits2.getLast?.getD (.fin 0))) else none
          else
            some (SSTBin.between (limits2.getD (d - 1) (.fin 0)) (limits2.getD d (.fin 0)))
        Except.ok (labels, displayMinutes)

/-! ## Concrete instances used by the theorems below -/

-- Decidable equality for `Except` results of the binner.
deriving instance DecidableEq for Except

/-- An adapter whose phase report is `liq` at pressure 1 and `gas`
elsewhere; enthalpies are chosen injectively so that replacements are
visible. -/
def mixedPhaseAdapter : PropsAdapter where
  enthalpy_pt := fun p T => 100 * p + T
  enthalpy_pq := fun p q => 1000 * p + q
  phase_pt := fun p _ => if p = 1 then .liq else .gas

/-- An adapter reporting phase `gas` for every state. -/
def allGasAdapter : PropsAdapter where
  enthalpy_pt := fun p _ => p
  enthalpy_pq := fun p _ => p
  phase_pt := fun _ _ => .gas

/-- The limits of claim C8: thresholds 1, 30, 60 minutes (in seconds) with
both open sentinels. -/
def binLimits : List Lim := [.ninf, .fin 60, .fin 1800, .fin 3600, .pinf]

/-- The same thresholds without the open sentinels. -/
def binLimitsClosed : List Lim := [.fin 60, .fin 1800, .fin 3600]

end Vaplac

namespace Vaplac

/-! ## Theorems -/

set_option maxHeartbeats 2000000 in
/-- C1 (code_bug): evaluation of the segmenter on the frequency signal
`[0, 0, 10, 10, 10]` (threshold 2 Hz, scratch arrays zero-initialized).
The claimed invariant (maximal runs partition all N samples and each sample
reports its run's length) demands the output `[2, 2, 3, 3, 3]` (times the
sampling interval); the code instead leaves samples 0-2 at the scratch
arrays' initial contents and reports a final run of 2 instead of 3: the
first reset writes to the empty slice `steps_number[-2:0]` and the loop
index `i` lags the position of `f` by one. -/
theorem seg_c1_invariant_violated :
    steady_state_steps_number 2 [0, 0, 10, 10, 10]
      (List.replicate 5 0) (List.replicate 5 0) (List.replicate 5 0) =
      [0, 0, 0, 2, 2] := by
  norm_num [steady_state_steps_number, segLoop, segStep, pyGetPred, pySliceLo,
    pyNegStart, setRangeFrom, List.set, List.getD, List.get?, List.replicate]

set_option maxHeartbeats 2000000 in
/-- C2 (code_bug): evaluation of the segmenter on the spec's example
`[50, 50, 50, 50, 90, 90, 90]` with threshold 2 Hz (scratch arrays
zero-initialized).  The claim expects runs of 4 (samples 0-3) and 3
(samples 4-6), i.e. steps `[4, 4, 4, 4, 3, 3, 3]`; the code returns
`[3, 3, 3, 0, 0, 2, 2]`: the first run is reported with length 3 over
samples 0-2 only, samples 3-4 keep the scratch arrays' initial contents,
and the final run is reported as 2 over samples 5-6. -/
theorem seg_c2_example_mismatch :
    steady_state_steps_number 2 [50, 50, 50, 50, 90, 90, 90]
      (List.replicate 7 0) (List.replicate 7 0) (List.replicate 7 0) =
      [3, 3, 3, 0, 0, 2, 2] := by
  norm_num [steady_state_steps_number, segLoop, segStep, pyGetPred, pySliceLo,
    pyNegStart, setRangeFrom, List.set, List.getD, List.get?, List.replicate]

/-- C5 counterexample: a direction-flag column with exactly half the samples
flagged cooling (`[0, 1]`) is treated as cooling (`heating = false`),
not heating as the claim states. -/
theorem heating_half_cooling_cx : heating [0, 1] = false := by
  norm_num [heating, count_nonzero]

/-- C5 (amended): the mode is heating iff strictly fewer than half the
samples are flagged cooling; in particular a column with exactly half the
samples flagged cooling is treated as cooling. -/
theorem heating_strict_majority (ref_dir : List ℚ) :
    (heating ref_dir = true ↔ 2 * count_nonzero ref_dir < ref_dir.length) ∧
    (2 * count_nonzero ref_dir = ref_dir.length → heating ref_dir = false) := by
  have key : heating ref_dir = true ↔ 2 * count_nonzero ref_dir < ref_dir.length := by
    rw [heating, decide_eq_true_eq, lt_div_iff₀ (by norm_num : (0:ℚ) < 2)]
    constructor
    · intro h
      have h2 : ((2 * count_nonzero ref_dir : ℕ) : ℚ) < ((ref_dir.length : ℕ) : ℚ) := by
        push_cast
        linarith
      exact_mod_cast h2
    · intro h
      have h2 : ((2 * count_nonzero ref_dir : ℕ) : ℚ) < ((ref_dir.length : ℕ) : ℚ) := by
        exact_mod_cast h
      push_cast at h2
      linarith
  refine ⟨key, fun h => ?_⟩
  have hnot : ¬ (2 * count_nonzero ref_dir < ref_dir.length) := by omega
  cases hb : heating ref_dir with
  | false => rfl
  | true => exact absurd (key.mp hb) hnot

/-- Witness for C5's amended theorem at the column `[0, 1, 1, 0]`
(two of four samples flagged cooling). -/
theorem heating_strict_majority_witness : heating [0, 1, 1, 0] = false :=
  (heating_strict_majority [0, 1, 1, 0]).2 (by norm_num [count_nonzero])

/-- C6 (code_bug): with expected inlet phase `liq` and observed phases
`[liq, gas]`, the code's correction leaves the mismatched second sample's
enthalpy unchanged (220) because at least one sample is in the expected
phase (`if not exp_phase in phase_in` fails), while the claimed per-sample
correction replaces it by the saturated enthalpy at the same pressure
(1000·2 + 0 = 2000). -/
theorem phase_correction_guard_bug :
    correct_enthalpy mixedPhaseAdapter .liq [1, 2] [10, 20] = [110, 220] ∧
    spec_phase_correction mixedPhaseAdapter .liq [1, 2] [10, 20] = [110, 2000] := by
  have hne : RPhase.gas = RPhase.liq ↔ False := by
    constructor
    · intro h
      exact absurd h (by decide)
    · intro h
      exact h.elim
  constructor <;>
    norm_num [correct_enthalpy, spec_phase_correction, mixedPhaseAdapter, quality,
      List.zipWith, List.zip, hne]

/-- C7 (confirmed): if the adapter reports the expected phase for every
sample of a state array, the phase correction of `_heat` is a no-op: the
corrected enthalpies equal the plain single-phase enthalpies. -/
theorem phase_correction_noop (A : PropsAdapter) (expPh : RPhase) (p T : List ℚ)
    (h : ∀ ph ∈ List.zipWith A.phase_pt p T, ph = expPh) :
    correct_enthalpy A expPh p T = List.zipWith A.enthalpy_pt p T := by
  unfold correct_enthalpy
  by_cases hm : expPh ∈ List.zipWith A.phase_pt p T
  · simp only [hm, if_true]
  · have hz : List.zipWith A.phase_pt p T = [] := by
      by_contra hne
      obtain ⟨a, ha⟩ := List.exists_mem_of_ne_nil _ hne
      exact hm ((h a ha) ▸ ha)
    rcases List.zipWith_eq_nil_iff.mp hz with hp | hT
    · simp [hm, hz, hp]
    · simp [hm, hz, hT]

/-- Witness for C7 with an all-gas adapter on two samples. -/
theorem phase_correction_noop_witness :
    correct_enthalpy allGasAdapter .gas [1, 2] [3, 4] =
      List.zipWith allGasAdapter.enthalpy_pt [1, 2] [3, 4] :=
  phase_correction_noop allGasAdapter .gas [1, 2] [3, 4] (by decide)

/-! ### Binner -/

lemma digitize_c8_low {x : ℚ} (h : x < 60) :
    digitize x [.fin 60, .fin 1800, .fin 3600] = 0 := by
  have h1 : ¬ (60:ℚ) ≤ x := not_le.mpr h
  have h2 : ¬ (1800:ℚ) ≤ x := not_le.mpr (by linarith)
  have h3 : ¬ (3600:ℚ) ≤ x := not_le.mpr (by linarith)
  norm_num [digitize, ascending, Lim.leL, Lim.leQ, List.filter, h1, h2, h3]

lemma digitize_c8_high {x : ℚ} (h : (3600:ℚ) ≤ x) :
    digitize x [.fin 60, .fin 1800, .fin 3600] = 3 := by
  have h1 : (60:ℚ) ≤ x := by linarith
  have h2 : (1800:ℚ) ≤ x := by linarith
  norm_num [digitize, ascending, Lim.leL, Lim.leQ, List.filter, h1, h2, h]

/-- C8 (confirmed): half-open binning intervals.  With thresholds 1, 30, 60
minutes (= 60, 1800, 3600 seconds) and both open sentinels, a duration of
exactly 30 minutes is labeled `[30, 60)` (never `[1, 30)`); a duration below
the first threshold gets the open-low label and one at/above the last gets
the open-high label; without the sentinels those durations are labeled
`None`. -/
theorem binning_boundaries :
    (set_steady_state_limits binLimits [1800] =
      Except.ok ([some (.between (.fin 1800) (.fin 3600))], true)) ∧
    (∀ x : ℚ, x < 60 → set_steady_state_limits binLimits [x] =
      Except.ok ([some (.lbound (.fin 60))], true)) ∧
    (∀ x : ℚ, (3600:ℚ) ≤ x → set_steady_state_limits binLimits [x] =
      Except.ok ([some (.ubound (.fin 3600))], true)) ∧
    (∀ x : ℚ, x < 60 → set_steady_state_limits binLimitsClosed [x] =
      Except.ok ([none], true)) ∧
    (∀ x : ℚ, (3600:ℚ) ≤ x → set_steady_state_limits binLimitsClosed [x] =
      Except.ok ([none], true)) := by
  refine ⟨by decide, fun x hx => ?_, fun x hx => ?_, fun x hx => ?_, fun x hx => ?_⟩
  · simp [set_steady_state_limits, binLimits, digitize_c8_low hx]
    norm_num [ascending, descending, Lim.leL, Lim.geQ]
  · simp [set_steady_state_limits, binLimits, digitize_c8_high hx]
    norm_num [ascending, descending, Lim.leL, Lim.geQ]
  · simp [set_steady_state_limits, binLimitsClosed, digitize_c8_low hx]
    norm_num [ascending, descending, Lim.leL, Lim.geQ]
  · simp [set_steady_state_limits, binLimitsClosed, digitize_c8_high hx]
    norm_num [ascending, descending, Lim.leL, Lim.geQ]

/-- Witness for C8 at the concrete durations 0 s (below the first threshold)
and 5000 s (above the last). -/
theorem binning_boundaries_witness :
    (set_steady_state_limits binLimits [0] =
      Except.ok ([some (.lbound (.fin 60))], true)) ∧
    (set_steady_state_limits binLimits [5000] =
      Except.ok ([some (.ubound (.fin 3600))], true)) ∧
    (set_steady_state_limits binLimitsClosed [0] = Except.ok ([none], true)) ∧
    (set_steady_state_limits binLimitsClosed [5000] = Except.ok ([none], true)) :=
  ⟨binning_boundaries.2.1 0 (by norm_num),
   binning_boundaries.2.2.1 5000 (by norm_num),
   binning_boundaries.2.2.2.1 0 (by norm_num),
   binning_boundaries.2.2.2.2 5000 (by norm_num)⟩

/-- C9 counterexample: the strictly descending thresholds `[60 s, 30 s]` are
not strictly ascending, yet the binner raises no error at all — it happily
produces a (nonsensical) label column, because `set_steady_state_limits`
performs no threshold validation and `np.digitize` accepts monotonically
decreasing bins. -/
theorem binner_descending_accepted_cx :
    set_steady_state_limits [.fin 60, .fin 30] [45] =
      Except.ok ([some (.between (.fin 60) (.fin 30))], false) := by
  decide

/-- C9 (amended): the binner has no `InvalidThreshold` error.  With fewer
than two explicit thresholds it fails with an `IndexError` (reading
`limits[1]`) before producing any output; non-monotonic thresholds make
`np.digitize` raise `ValueError`; and every error it can raise is one of
these two — never `InvalidThreshold`. -/
theorem binner_error_behavior :
    (∀ sst : List ℚ, set_steady_state_limits [.ninf, .fin 1800, .pinf] sst =
      Except.error .indexError) ∧
    (set_steady_state_limits [.fin 1, .fin 3, .fin 2] [0] =
      Except.error .valueError) ∧
    (∀ (limits : List Lim) (sst : List ℚ) (e : BinError),
      set_steady_state_limits limits sst = Except.error e →
      e = .indexError ∨ e = .valueError) := by
  refine ⟨fun sst => rfl, by decide, fun limits sst e h => ?_⟩
  unfold set_steady_state_limits at h
  split at h
  · injection h with h2
    exact Or.inl h2.symm
  · simp only [] at h
    repeat' split at h
    all_goals
      first
      | (injection h with h2
         first
         | exact Or.inl h2.symm
         | exact Or.inr h2.symm)
      | simp at h

/-- Witness for C9's amended theorem: the error taxonomy statement applied
at the concrete failing input `[-inf, 1800 s, inf]` (one explicit
threshold). -/
theorem binner_error_behavior_witness :
    (set_steady_state_limits [.ninf, .fin 1800, .pinf] [] =
      Except.error .indexError) ∧
    (BinError.indexError = .indexError ∨ BinError.indexError = .valueError) :=
  ⟨binner_error_behavior.1 [],
   binner_error_behavior.2.2 [.ninf, .fin 1800, .pinf] [] .indexError
     (binner_error_behavior.1 [])⟩

/-! ### Quantity store -/

variable {Name V Filter : Type} [DecidableEq Name] [DecidableEq Filter]

omit [DecidableEq Filter] in
lemma build_quantities_lookup (derive : Name → Filter → V) (names : List Name)
    (φ : Filter) (dtk : DataTaker Name V Filter) (n : Name) :
    (build_quantities derive names φ dtk).quantities n =
      if n ∈ names then some (derive n φ) else dtk.quantities n := by
  induction names generalizing dtk with
  | nil => simp [build_quantities]
  | cons m ms ih =>
    have hstep : build_quantities derive (m :: ms) φ dtk =
        build_quantities derive ms φ
          { dtk with
            quantities := fun x => if x = m then some (derive m φ) else dtk.quantities x } := rfl
    rw [hstep, ih]
    by_cases hnm : n = m
    · subst hnm
      by_cases hin : n ∈ ms <;> simp [hin]
    · simp [hnm, List.mem_cons]

lemma get_groups (derive : Name → Filter → V) (vars : List Name) (u : Bool)
    (φ : Filter) (dtk : DataTaker Name V Filter) :
    (get derive vars u φ dtk).1.groups = φ := by
  unfold get
  split <;> rfl

lemma get_values (derive : Name → Filter → V) (vars : List Name) (u : Bool)
    (φ : Filter) (dtk : DataTaker Name V Filter) :
    (get derive vars u φ dtk).2.1 = vars.map (get derive vars u φ dtk).1.quantities := by
  unfold get
  split <;> rfl

lemma get_log (derive : Name → Filter → V) (vars : List Name) (u : Bool)
    (φ : Filter) (dtk : DataTaker Name V Filter) :
    (get derive vars u φ dtk).2.2 =
      if u = true ∨ dtk.groups ≠ φ then vars.dedup
      else vars.dedup.filter fun n => (dtk.quantities n).isNone := by
  by_cases h : u = true ∨ dtk.groups ≠ φ
  · simp only [get, h, if_true, if_pos h]
  · simp only [get, h, if_false, if_neg h]

lemma get_lookup (derive : Name → Filter → V) (vars : List Name) (u : Bool)
    (φ : Filter) (dtk : DataTaker Name V Filter) (n : Name) :
    (get derive vars u φ dtk).1.quantities n =
      if n ∈ (get derive vars u φ dtk).2.2 then some (derive n φ)
      else if u = true ∨ dtk.groups ≠ φ then none else dtk.quantities n := by
  unfold get
  by_cases h : u = true ∨ dtk.groups ≠ φ
  · rw [if_pos h]
    simp only [build_quantities_lookup]
    rw [if_pos h]
  · rw [if_neg h]
    simp only [build_quantities_lookup]
    rw [if_neg h]

/-- C4 (confirmed): when `update` is true or the supplied filter differs
from the active one, the whole store is discarded and exactly the requested
names are (re)derived under the new filter (afterwards the store holds the
requested names and nothing else); otherwise exactly the requested names
missing from the store are derived, and all other cached entries survive
unchanged. -/
theorem get_filter_invalidation (derive : Name → Filter → V) (vars : List Name)
    (u : Bool) (φ : Filter) (dtk : DataTaker Name V Filter) :
    ((get derive vars u φ dtk).2.2 =
      if u = true ∨ dtk.groups ≠ φ then vars.dedup
      else vars.dedup.filter fun n => (dtk.quantities n).isNone) ∧
    ∀ n : Name, (get derive vars u φ dtk).1.quantities n =
      if n ∈ (get derive vars u φ dtk).2.2 then some (derive n φ)
      else if u = true ∨ dtk.groups ≠ φ then none else dtk.quantities n :=
  ⟨get_log derive vars u φ dtk, get_lookup derive vars u φ dtk⟩

/-- C3 (confirmed): resolving the same names twice under the same filter
with `update=False` performs no derivation at all on the second call (its
derivation log is empty), leaves the store untouched, and returns exactly
the values of the first call. -/
theorem get_cache_coherence (derive : Name → Filter → V) (vars : List Name)
    (u : Bool) (φ : Filter) (dtk : DataTaker Name V Filter) :
    ((get derive vars false φ (get derive vars u φ dtk).1).2.2 = []) ∧
    ((get derive vars false φ (get derive vars u φ dtk).1).1 =
      (get derive vars u φ dtk).1) ∧
    ((get derive vars false φ (get derive vars u φ dtk).1).2.1 =
      (get derive vars u φ dtk).2.1) := by
  have hg : (get derive vars u φ dtk).1.groups = φ := get_groups derive vars u φ dtk
  have hcond : ¬ (false = true ∨ (get derive vars u φ dtk).1.groups ≠ φ) := by
    simp [hg]
  have hsome : ∀ n ∈ vars.dedup,
      ((get derive vars u φ dtk).1.quantities n).isNone = false := by
    intro n hn
    rw [get_lookup derive vars u φ dtk n]
    by_cases hmem : n ∈ (get derive vars u φ dtk).2.2
    · simp [hmem]
    · rw [if_neg hmem]
      by_cases hc : u = true ∨ dtk.groups ≠ φ

      · exact absurd (by rw [get_log derive vars u φ dtk, if_pos hc]; exact hn) hmem
      · rw [if_neg hc]
        cases hq : dtk.quantities n with
        | none =>
          exact absurd
            (by
              rw [get_log derive vars u φ dtk, if_neg hc]
              exact List.mem_filter.mpr ⟨hn, by simp [hq]⟩)
            hmem
        | some v => rfl
  have hlog : (get derive vars false φ (get derive vars u φ dtk).1).2.2 = [] := by
    rw [get_log derive vars false φ (get derive vars u φ dtk).1, if_neg hcond]
    refine List.filter_eq_nil_iff.mpr fun n hn => ?_
    simp [hsome n hn]
  have hstate : (get derive vars false φ (get derive vars u φ dtk).1).1 =
      (get derive vars u φ dtk).1 := by
    ext n
    · rw [get_lookup derive vars false φ (get derive vars u φ dtk).1 n, hlog,
        if_neg (List.not_mem_nil n), if_neg hcond]
    · rw [get_groups derive vars false φ (get derive vars u φ dtk).1, hg]
  refine ⟨hlog, hstate, ?_⟩
  rw [get_values derive vars false φ (get derive vars u φ dtk).1,
    get_values derive vars u φ dtk, hstate]

/-! ### Cleaned quantities -/

/-- C10 (confirmed): elementwise, the cleaned frequency is the raw reading
with `'UnderRange'` replaced by 0 and then halved; it is 0 exactly when the
raw cell was the sentinel or a literal 0; and the cleaned mass flow is 0
exactly where the cleaned frequency is 0 and the raw mass-flow reading
elsewhere. -/
theorem cleaned_quantities_elementwise (raw : List RawVal) (flow : List ℚ)
    (i : ℕ) (hi : i < raw.length) (hf : i < flow.length) :
    ((clean_f raw).getD i 0 =
      (match raw.getD i (.num 0) with
       | .underRange => (0:ℚ)
       | .num q => q / 2)) ∧
    ((clean_f raw).getD i 0 = 0 ↔
      raw.getD i (.num 0) = .underRange ∨ raw.getD i (.num 0) = .num 0) ∧
    ((clean_flowrt_r (clean_f raw) flow).getD i 0 =
      if (clean_f raw).getD i 0 = 0 then 0 else flow.getD i 0) := by
  have hlen : (clean_f raw).length = raw.length := by simp [clean_f]
  have hcf : (clean_f raw).getD i 0 =
      (match raw.getD i (.num 0) with
       | .underRange => (0:ℚ)
       | .num q => q / 2) := by
    rw [List.getD_eq_getElem _ _ hi, List.getD_eq_getElem _ _ (hlen ▸ hi)]
    simp only [clean_f, List.getElem_map]
    cases raw[i] <;> simp
  refine ⟨hcf, ?_, ?_⟩
  · rw [hcf]
    cases hr : raw.getD i (.num 0) with
    | underRange => simp
    | num q =>
      have hq2 : (q / 2 = 0) ↔ q = 0 := by
        constructor
        · intro h
          rcases div_eq_zero_iff.mp h with h0 | h2
          · exact h0
          · exact absurd h2 (by norm_num)
        · intro h
          rw [h]
          norm_num
      simp [hq2]
  · have hmin : i < (clean_flowrt_r (clean_f raw) flow).length := by
      simp only [clean_flowrt_r, List.length_zipWith, hlen]
      omega
    have hcl : i < (clean_f raw).length := by
      rw [hlen]
      exact hi
    rw [List.getD_eq_getElem _ _ hmin, List.getD_eq_getElem _ _ hcl,
      List.getD_eq_getElem _ _ hf]
    simp [clean_flowrt_r, List.getElem_zipWith]

/-- Witness for C10 at the raw frequency column `[UnderRange, 100, 0]` and
raw mass-flow column `[7, 8, 9]`, sample index 1. -/
theorem cleaned_quantities_elementwise_witness :
    ((clean_f [RawVal.underRange, RawVal.num 100, RawVal.num 0]).getD 1 0 = 0 ↔
      [RawVal.underRange, RawVal.num 100, RawVal.num 0].getD 1 (RawVal.num 0) =
        RawVal.underRange ∨
      [RawVal.underRange, RawVal.num 100, RawVal.num 0].getD 1 (RawVal.num 0) =
        RawVal.num 0) ∧
    ((clean_flowrt_r (clean_f [RawVal.underRange, RawVal.num 100, RawVal.num 0])
        [7, 8, 9]).getD 1 0 =
      if (clean_f [RawVal.underRange, RawVal.num 100, RawVal.num 0]).getD 1 0 = 0
      then 0 else ([7, 8, 9] : List ℚ).getD 1 0) :=
  ⟨(cleaned_quantities_elementwise [RawVal.underRange, RawVal.num 100, RawVal.num 0]
      [7, 8, 9] 1 (by norm_num) (by norm_num)).2.1,
   (cleaned_quantities_elementwise [RawVal.underRange, RawVal.num 100, RawVal.num 0]
      [7, 8, 9] 1 (by norm_num) (by norm_num)).2.2⟩

end Vaplac
